import Mathlib

/-!
Verification development for the GuardRails task-tracking engine.

The definitions below are shallow embeddings of the Go source:
identifier handling from internal/models/template.go, the dependency
graph and its cycle check from cmd/dep.go, the gate verification engine
from cmd/gate.go and internal/models/template.go, the closure workflow
from cmd/close.go, the status branch of cmd/update.go, and the audit
trail recorder from internal/models (RecordChange).  Identifiers are
modelled as lists of characters (all accepted identifiers are ASCII, so
Go byte indexing and character indexing agree); timestamps are drawn
from an abstract clock passed as an argument; the relational store is a
record of lists standing for the live (non-soft-deleted) rows of each
table.
-/

namespace GuardRails

/-! ## Identifier component (internal/models/template.go) -/

/-- Characters of the fixed task-id head: the constant head used by
GenerateID and required by taskIDPattern, four characters long. -/
def idHead : List Char := ['g', 'u', 'r', '-']

/-- Embeds the character class of taskIDPattern for the hash part:
lowercase hex digits a-f together with the decimal digits. -/
def isHexLower (c : Char) : Bool :=
  (('a' ≤ c) && (c ≤ 'f')) || (('0' ≤ c) && (c ≤ '9'))

/-- Decimal digit test, the backslash-d class of taskIDPattern. -/
def isDigitCh (c : Char) : Bool := ('0' ≤ c) && (c ≤ '9')

/-- States of the scanner for the suffix star of taskIDPattern: seg
expects a new dot-segment or the end; dig1 expects the first digit of a
segment; digs expects a further digit, a new segment, or the end. -/
inductive SegMode | seg | dig1 | digs

/-- Embeds the anchored suffix part of taskIDPattern, a star of groups
each consisting of a dot followed by one or more digits, as the evident
deterministic scanner of that expression. -/
def segScan : SegMode → List Char → Bool
  | .seg, [] => true
  | .seg, c :: rest => (c = '.') && segScan .dig1 rest
  | .dig1, [] => false
  | .dig1, c :: rest => isDigitCh c && segScan .digs rest
  | .digs, [] => true
  | .digs, c :: rest =>
      if isDigitCh c then segScan .digs rest
      else (c = '.') && segScan .dig1 rest

/-- Embeds ValidateTaskID: an anchored match of taskIDPattern (fixed
head, exactly eight lowercase hex characters, then zero or more
dot-digit-run suffix segments). -/
def ValidateTaskID (id : List Char) : Bool :=
  (id.take 4 == idHead) && (((id.drop 4).take 8).length == 8)
    && ((id.drop 4).take 8).all isHexLower
    && segScan .seg ((id.drop 4).drop 8)

/-- Concatenation of suffix segments, each rendered as a dot followed by
its characters; the shape the suffix star of taskIDPattern produces. -/
def segJoin (segs : List (List Char)) : List Char :=
  (segs.map (fun s => '.' :: s)).flatten

/-- A nonempty, all-digit suffix segment. -/
def DigitSeg (s : List Char) : Prop :=
  s ≠ [] ∧ ∀ c ∈ s, isDigitCh c = true

/-- Structural characterization of well-formed task ids: head, exactly
eight lowercase hex characters, then dot-separated digit segments. -/
def WellFormedID (id : List Char) : Prop :=
  ∃ h segs, id = idHead ++ h ++ segJoin segs ∧ h.length = 8 ∧
    (∀ c ∈ h, isHexLower c = true) ∧ ∀ s ∈ segs, DigitSeg s

/-- Modelled from the spec words of C9: a suffix segment that denotes a
positive integer, that is, a nonempty digit run with a nonzero digit. -/
def PosSeg (s : List Char) : Prop :=
  DigitSeg s ∧ ∃ c ∈ s, c ≠ '0'

/-- Modelled from the spec words of C9: the claimed acceptance condition
of the identifier validator, requiring every suffix segment to be a dot
followed by a positive integer. -/
def SpecFormedID (id : List Char) : Prop :=
  ∃ h segs, id = idHead ++ h ++ segJoin segs ∧ h.length = 8 ∧
    (∀ c ∈ h, isHexLower c = true) ∧ ∀ s ∈ segs, PosSeg s

/-- Decimal digit character for a value below ten, as produced by the
decimal formatting of fmt.Sprintf. -/
def digitChar (n : Nat) : Char := Char.ofNat (48 + n)

/-- Fuel-driven core of the decimal rendering; the fuel only serves to
make the recursion structural and is always supplied large enough that
it never runs out. -/
def natReprAux : Nat → Nat → List Char
  | 0, _ => []
  | fuel + 1, n =>
      if n < 10 then [digitChar n]
      else natReprAux fuel (n / 10) ++ [digitChar (n % 10)]

/-- Decimal representation of a natural number, most significant digit
first; embeds the percent-d formatting used by GenerateSubtaskID (the
ordinal supplied by the caller is nonnegative). -/
def natRepr (n : Nat) : List Char := natReprAux (n + 1) n

/-- Embeds GenerateSubtaskID: the parent id, a dot, and the decimal
rendering of the subtask ordinal. -/
def GenerateSubtaskID (parentID : List Char) (subtaskNumber : Nat) : List Char :=
  parentID ++ '.' :: natRepr subtaskNumber

/-- Embeds GetParentID: everything before the last dot, or empty when
the id has no dot (a root id). -/
def GetParentID (id : List Char) : List Char :=
  ((id.reverse.dropWhile (fun c => !(c = '.'))).drop 1).reverse

/-- Embeds GetRootID: the id truncated at the first dot at or after
index twelve (head length four plus eight hex characters); the whole id
when no such dot exists. -/
def GetRootID (id : List Char) : List Char :=
  id.take 12 ++ (id.drop 12).takeWhile (fun c => !(c = '.'))

/-- Embeds GetDepth: the number of dots in the id. -/
def GetDepth (id : List Char) : Nat := id.count '.'

/-! ### Lemmas about the identifier component -/

lemma segJoin_nil : segJoin [] = [] := rfl

lemma segJoin_cons (s : List Char) (segs : List (List Char)) :
    segJoin (s :: segs) = '.' :: (s ++ segJoin segs) := by
  simp [segJoin]

lemma isDigitCh_dot : isDigitCh '.' = false := rfl


/-- Joint characterization of the three scanner states in terms of the
segment decomposition they accept. -/
lemma segScan_iff (l : List Char) :
    (segScan .seg l = true ↔ ∃ segs, l = segJoin segs ∧ ∀ s ∈ segs, DigitSeg s) ∧
    (segScan .dig1 l = true ↔
      ∃ s segs, DigitSeg s ∧ (∀ x ∈ segs, DigitSeg x) ∧ l = s ++ segJoin segs) ∧
    (segScan .digs l = true ↔
      ∃ ds segs, (∀ c ∈ ds, isDigitCh c = true) ∧ (∀ x ∈ segs, DigitSeg x) ∧
        l = ds ++ segJoin segs) := by
  induction l with
  | nil =>
    refine ⟨⟨fun _ => ⟨[], rfl, by simp⟩, fun _ => rfl⟩, ⟨?_, ?_⟩, ?_, ?_⟩
    · intro h; exact absurd h (by simp [segScan])
    · rintro ⟨s, segs, ⟨hne, _⟩, _, heq⟩
      exact absurd (List.append_eq_nil.mp heq.symm).1 hne
    · intro _; exact ⟨[], [], by simp, by simp, rfl⟩
    · intro _; rfl
  | cons c rest ih =>
    obtain ⟨ihseg, ihdig1, ihdigs⟩ := ih
    refine ⟨⟨?_, ?_⟩, ⟨?_, ?_⟩, ?_, ?_⟩
    · intro h
      simp only [segScan, Bool.and_eq_true, decide_eq_true_eq] at h
      obtain ⟨hc, hrest⟩ := h
      obtain ⟨s, segs, hs, hsegs, heq⟩ := ihdig1.mp hrest
      refine ⟨s :: segs, ?_, ?_⟩
      · rw [segJoin_cons, hc, heq]
      · intro x hx
        rcases List.mem_cons.mp hx with h | h
        · exact h ▸ hs
        · exact hsegs x h
    · rintro ⟨segs, heq, hsegs⟩
      cases segs with
      | nil => simp [segJoin] at heq
      | cons s ss =>
        rw [segJoin_cons] at heq
        obtain ⟨hc, hrest⟩ := List.cons_eq_cons.mp heq
        simp only [segScan, Bool.and_eq_true, decide_eq_true_eq]
        exact ⟨hc, ihdig1.mpr ⟨s, ss, hsegs s (by simp),
          fun x hx => hsegs x (by simp [hx]), hrest⟩⟩
    · intro h
      simp only [segScan, Bool.and_eq_true] at h
      obtain ⟨hc, hrest⟩ := h
      obtain ⟨ds, segs, hds, hsegs, heq⟩ := ihdigs.mp hrest
      refine ⟨c :: ds, segs, ⟨by simp, ?_⟩, hsegs, by simp [heq]⟩
      intro x hx
      rcases List.mem_cons.mp hx with hh | hh
      · exact hh ▸ hc
      · exact hds x hh
    · rintro ⟨s, segs, ⟨hne, hdig⟩, hsegs, heq⟩
      cases s with
      | nil => exact absurd rfl hne
      | cons d ds =>
        obtain ⟨hc, hrest⟩ := List.cons_eq_cons.mp heq
        simp only [segScan, Bool.and_eq_true]
        exact ⟨hc ▸ hdig d (by simp),
          ihdigs.mpr ⟨ds, segs, fun x hx => hdig x (by simp [hx]), hsegs, hrest⟩⟩
    · intro h
      simp only [segScan] at h
      by_cases hd : isDigitCh c = true
      · rw [if_pos hd] at h
        obtain ⟨ds, segs, hds, hsegs, heq⟩ := ihdigs.mp h
        refine ⟨c :: ds, segs, ?_, hsegs, by simp [heq]⟩
        intro x hx
        rcases List.mem_cons.mp hx with hh | hh
        · exact hh ▸ hd
        · exact hds x hh
      · rw [if_neg hd] at h
        simp only [Bool.and_eq_true, decide_eq_true_eq] at h
        obtain ⟨hc, hrest⟩ := h
        obtain ⟨s, segs, hs, hsegs, heq⟩ := ihdig1.mp hrest
        refine ⟨[], s :: segs, by simp, ?_, ?_⟩
        · intro x hx
          rcases List.mem_cons.mp hx with hh | hh
          · exact hh ▸ hs
          · exact hsegs x hh
        · rw [List.nil_append, segJoin_cons, hc, heq]
    · rintro ⟨ds, segs, hds, hsegs, heq⟩
      cases ds with
      | cons d ds2 =>
        obtain ⟨hc, hrest⟩ := List.cons_eq_cons.mp heq
        have hd : isDigitCh c = true := hc ▸ hds d (by simp)
        simp only [segScan, if_pos hd]
        exact ihdigs.mpr ⟨ds2, segs, fun x hx => hds x (by simp [hx]), hsegs, hrest⟩
      | nil =>
        rw [List.nil_append] at heq
        cases segs with
        | nil => simp [segJoin] at heq
        | cons s ss =>
          rw [segJoin_cons] at heq
          obtain ⟨hc, hrest⟩ := List.cons_eq_cons.mp heq
          have hd : ¬ (isDigitCh c = true) := by
            rw [hc]; simp [isDigitCh_dot]
          simp only [segScan, if_neg hd, Bool.and_eq_true, decide_eq_true_eq]
          exact ⟨hc, ihdig1.mpr ⟨s, ss, hsegs s (by simp),
            fun x hx => hsegs x (by simp [hx]), hrest⟩⟩

/-- The validator accepts exactly the structurally well-formed ids. -/
lemma validate_iff (id : List Char) :
    ValidateTaskID id = true ↔ WellFormedID id := by
  constructor
  · intro hv
    simp only [ValidateTaskID, Bool.and_eq_true, beq_iff_eq] at hv
    obtain ⟨⟨⟨hhead, hlen⟩, hhex⟩, hseg⟩ := hv
    obtain ⟨segs, heq, hsegs⟩ := (segScan_iff ((id.drop 4).drop 8)).1.mp hseg
    refine ⟨(id.drop 4).take 8, segs, ?_, hlen,
      fun c hc => List.all_eq_true.mp hhex c hc, hsegs⟩
    calc id = id.take 4 ++ id.drop 4 := (List.take_append_drop 4 id).symm
      _ = idHead ++ id.drop 4 := by rw [hhead]
      _ = idHead ++ ((id.drop 4).take 8 ++ (id.drop 4).drop 8) := by
            rw [List.take_append_drop]
      _ = idHead ++ ((id.drop 4).take 8 ++ segJoin segs) := by rw [heq]
      _ = idHead ++ (id.drop 4).take 8 ++ segJoin segs := by rw [List.append_assoc]
  · rintro ⟨h, segs, rfl, hlen, hhex, hsegs⟩
    have h4 : idHead.length = 4 := rfl
    simp only [ValidateTaskID, Bool.and_eq_true, beq_iff_eq]
    rw [List.append_assoc]
    have htake : (idHead ++ (h ++ segJoin segs)).take 4 = idHead := by
      rw [← h4, List.take_left]
    have hdrop : (idHead ++ (h ++ segJoin segs)).drop 4 = h ++ segJoin segs := by
      rw [← h4, List.drop_left]
    have htake8 : (h ++ segJoin segs).take 8 = h := by rw [← hlen, List.take_left]
    have hdrop8 : (h ++ segJoin segs).drop 8 = segJoin segs := by
      rw [← hlen, List.drop_left]
    refine ⟨⟨⟨htake, ?_⟩, ?_⟩, ?_⟩
    · rw [hdrop, htake8, hlen]
    · rw [hdrop, htake8]
      exact List.all_eq_true.mpr hhex
    · rw [hdrop, hdrop8]
      exact (segScan_iff (segJoin segs)).1.mpr ⟨segs, rfl, hsegs⟩

lemma isDigitCh_digitChar (d : Nat) (hd : d < 10) :
    isDigitCh (digitChar d) = true := by
  interval_cases d <;> rfl

lemma natReprAux_digits (fuel n : Nat) :
    ∀ c ∈ natReprAux fuel n, isDigitCh c = true := by
  induction fuel generalizing n with
  | zero => intro c hc; simp [natReprAux] at hc
  | succ fuel ih =>
    intro c hc
    by_cases h : n < 10
    · simp only [natReprAux, if_pos h, List.mem_singleton] at hc
      exact hc ▸ isDigitCh_digitChar n h
    · simp only [natReprAux, if_neg h, List.mem_append, List.mem_singleton] at hc
      rcases hc with hc | hc
      · exact ih (n / 10) c hc
      · exact hc ▸ isDigitCh_digitChar (n % 10) (Nat.mod_lt n (by omega))

lemma natRepr_digits (n : Nat) : ∀ c ∈ natRepr n, isDigitCh c = true :=
  natReprAux_digits (n + 1) n

lemma natRepr_no_dot (n : Nat) : ∀ c ∈ natRepr n, ¬ c = '.' := by
  intro c hc hdot
  have hd := natRepr_digits n c hc
  rw [hdot] at hd
  exact absurd hd (by simp [isDigitCh_dot])

/-- Dropping while a predicate holds skips a whole block on which the
predicate holds everywhere. -/
lemma dropWhile_append_all {p : Char → Bool} {l m : List Char}
    (h : ∀ x ∈ l, p x = true) : (l ++ m).dropWhile p = m.dropWhile p := by
  induction l with
  | nil => rfl
  | cons a l ih =>
    rw [List.cons_append, List.dropWhile_cons, if_pos (h a (by simp))]
    exact ih fun x hx => h x (by simp [hx])

/-- Appending a dot and a dot-free suffix and taking everything before
the last dot recovers the original id. -/
lemma getParent_append (p t : List Char) (ht : ∀ c ∈ t, ¬ c = '.') :
    GetParentID (p ++ '.' :: t) = p := by
  unfold GetParentID
  rw [List.reverse_append, List.reverse_cons, List.append_assoc]
  rw [dropWhile_append_all (by
    intro x hx
    simp only [Bool.not_eq_true', decide_eq_false_iff_not]
    exact ht x (List.mem_reverse.mp hx))]
  simp [List.dropWhile_cons]

lemma getDepth_append (p t : List Char) (ht : ∀ c ∈ t, ¬ c = '.') :
    GetDepth (p ++ '.' :: t) = GetDepth p + 1 := by
  unfold GetDepth
  rw [List.count_append, List.count_cons_self]
  have hz : t.count '.' = 0 := by
    rw [List.count_eq_zero]
    intro hmem
    exact ht '.' hmem rfl
  omega

/-- Evaluation of GetRootID on an id split after its twelve-character
root part. -/
lemma getRoot_eq (pre u : List Char) (hpre : pre.length = 12) :
    GetRootID (pre ++ u) = pre ++ u.takeWhile (fun c => !(c = '.')) := by
  unfold GetRootID
  rw [← hpre, List.take_left, List.drop_left]

lemma getRoot_append (anc t : List Char) (hanc : WellFormedID anc) :
    GetRootID (anc ++ '.' :: t) = GetRootID anc := by
  obtain ⟨h, segs, rfl, hlen, -, -⟩ := hanc
  have hpre : (idHead ++ h).length = 12 := by simp [idHead, hlen]
  rw [List.append_assoc (idHead ++ h) (segJoin segs) ('.' :: t),
    getRoot_eq (idHead ++ h) (segJoin segs ++ '.' :: t) hpre,
    getRoot_eq (idHead ++ h) (segJoin segs) hpre]
  congr 1
  cases segs with
  | nil => simp [segJoin, List.takeWhile_cons]
  | cons s ss =>
    rw [segJoin_cons, List.cons_append]
    simp [List.takeWhile_cons]

/-! ### Model sanity checks mirroring the test vectors of the source -/

example : ValidateTaskID (("gur-a1b2c3d4").toList) = true := by decide
example : ValidateTaskID (("gur-00000000").toList) = true := by decide
example : ValidateTaskID (("gur-a1b2c3d4.1.2.3").toList) = true := by decide
example : ValidateTaskID ([]) = false := by decide
example : ValidateTaskID (("gur-abc").toList) = false := by decide
example : ValidateTaskID (("gur-A1B2C3D4").toList) = false := by decide
example : ValidateTaskID (("task-a1b2c3d4").toList) = false := by decide
example : ValidateTaskID (("gur-a1b2c3d4.").toList) = false := by decide
example : ValidateTaskID (("gur-a1b2c3d4.a").toList) = false := by decide
example : GenerateSubtaskID (("gur-a1b2c3d4").toList) 1 = ("gur-a1b2c3d4.1").toList := by decide
example : GetParentID (("gur-a1b2c3d4.1.2").toList) = ("gur-a1b2c3d4.1").toList := by decide
example : GetParentID (("gur-a1b2c3d4").toList) = [] := by decide
example : GetRootID (("gur-a1b2c3d4.1.2").toList) = ("gur-a1b2c3d4").toList := by decide
example : GetDepth (("gur-a1b2c3d4.1.2").toList) = 2 := by decide
example : natRepr 123 = ['1', '2', '3'] := by decide

/-! ### Claim C7 -/

/-- C7: for every well-formed ancestor identifier and every positive
ordinal, deriving the subtask identifier and then parsing its ancestry
round-trips: the recovered parent equals the ancestor, the recovered
root equals the ancestor's root, and the depth is the ancestor's depth
plus one. -/
theorem c7_subtask_roundtrip (anc : List Char) (n : Nat)
    (hv : ValidateTaskID anc = true) (_hn : 0 < n) :
    GetParentID (GenerateSubtaskID anc n) = anc ∧
    GetRootID (GenerateSubtaskID anc n) = GetRootID anc ∧
    GetDepth (GenerateSubtaskID anc n) = GetDepth anc + 1 :=
  ⟨getParent_append anc (natRepr n) (natRepr_no_dot n),
    getRoot_append anc (natRepr n) ((validate_iff anc).mp hv),
    getDepth_append anc (natRepr n) (natRepr_no_dot n)⟩

/-- Witness for C7 at the ancestor gur-a1b2c3d4.1 and ordinal 1,
matching the example of the spec: parent gur-a1b2c3d4.1, root
gur-a1b2c3d4, depth 2. -/
theorem c7_subtask_roundtrip_witness :
    ValidateTaskID (("gur-a1b2c3d4.1").toList) = true ∧ 0 < 1 ∧
    (GetParentID (GenerateSubtaskID (("gur-a1b2c3d4.1").toList) 1) =
        ("gur-a1b2c3d4.1").toList ∧
      GetRootID (GenerateSubtaskID (("gur-a1b2c3d4.1").toList) 1) =
        GetRootID (("gur-a1b2c3d4.1").toList) ∧
      GetDepth (GenerateSubtaskID (("gur-a1b2c3d4.1").toList) 1) =
        GetDepth (("gur-a1b2c3d4.1").toList) + 1) :=
  ⟨by decide, by decide,
    c7_subtask_roundtrip (("gur-a1b2c3d4.1").toList) 1 (by decide) (by decide)⟩

/-! ### Claim C9 -/

/-- C9 counterexample: the validator accepts gur-a1b2c3d4.0, whose only
suffix segment is the digit zero and hence not a positive integer, so
acceptance is not equivalent to the claimed shape with positive-integer
segments. -/
theorem c9_counterexample :
    ValidateTaskID (("gur-a1b2c3d4.0").toList) = true ∧
    ¬ SpecFormedID (("gur-a1b2c3d4.0").toList) := by
  refine ⟨by decide, ?_⟩
  rintro ⟨h, segs, heq, hlen, -, hsegs⟩
  have hs0 : ("gur-a1b2c3d4.0").toList =
      idHead ++ (("a1b2c3d4").toList ++ ['.', '0']) := by decide
  rw [hs0, List.append_assoc] at heq
  have heq2 : ("a1b2c3d4").toList ++ ['.', '0'] = h ++ segJoin segs :=
    List.append_cancel_left heq
  have hA : (("a1b2c3d4").toList).length = h.length := by rw [hlen]; decide
  obtain ⟨-, hseg⟩ := List.append_inj heq2 hA
  cases segs with
  | nil => simp [segJoin] at hseg
  | cons s ss =>
    rw [segJoin_cons] at hseg
    obtain ⟨-, hrest⟩ := List.cons_eq_cons.mp hseg
    obtain ⟨⟨hne, -⟩, c, hcmem, hcne⟩ := hsegs s (by simp)
    cases s with
    | nil => exact absurd rfl hne
    | cons d ds =>
      rw [List.cons_append] at hrest
      obtain ⟨hd0, htail⟩ := List.cons_eq_cons.mp hrest
      obtain ⟨hds, -⟩ := List.append_eq_nil.mp htail.symm
      subst hd0 hds
      rcases List.mem_singleton.mp hcmem with rfl
      exact hcne rfl

/-- C9 (amended): the validator accepts a string exactly when it
consists of the fixed head, exactly eight lowercase hex characters, and
zero or more suffix segments each of which is a dot followed by one or
more decimal digits — the digit run need not denote a positive integer
(a lone zero segment is accepted); no trailing dot and no non-numeric
segment is accepted. -/
theorem c9_validate_characterization (id : List Char) :
    ValidateTaskID id = true ↔ WellFormedID id :=
  validate_iff id

/-! ## Dependency graph (cmd/dep.go, internal/models/dependency.go) -/

/-- Embeds the persisted fields of models.Dependency that the claims
concern: parentID is the blocking task, childID the blocked task, typ
the relation type tag (Type in the source). -/
structure Dependency where
  parentID : String
  childID : String
  typ : String
deriving DecidableEq

/-- Dependency type constant DepTypeBlocks. -/
def DepTypeBlocks : String := "blocks"

/-- Dependency type constant DepTypeRelated. -/
def DepTypeRelated : String := "related"

/-- Edge relation of the whole dependency table, any type tag: some
live row records that a blocks b. -/
def HasEdge (deps : List Dependency) (a b : String) : Prop :=
  ∃ d ∈ deps, d.parentID = a ∧ d.childID = b

/-- Edge relation restricted to rows of type blocks. -/
def HasBlocksEdge (deps : List Dependency) (a b : String) : Prop :=
  ∃ d ∈ deps, d.parentID = a ∧ d.childID = b ∧ d.typ = DepTypeBlocks

/-- Reachability along dependency edges of any type. -/
def Reach (deps : List Dependency) : String → String → Prop :=
  Relation.ReflTransGen (HasEdge deps)

/-- Reachability through at least one edge of any type. -/
def ReachPlus (deps : List Dependency) (a b : String) : Prop :=
  ∃ w, Reach deps a w ∧ HasEdge deps w b

/-- Reachability along blocks edges only. -/
def ReachB (deps : List Dependency) : String → String → Prop :=
  Relation.ReflTransGen (HasBlocksEdge deps)

/-- Reachability through at least one blocks edge. -/
def ReachBPlus (deps : List Dependency) (a b : String) : Prop :=
  ∃ w, ReachB deps a w ∧ HasBlocksEdge deps w b

/-- Acyclicity of the blocks subgraph: no task reaches itself through a
nonempty chain of blocks edges. -/
def AcyclicBlocks (deps : List Dependency) : Prop :=
  ∀ x, ¬ ReachBPlus deps x x

/-- All node occurrences of the dependency table, used only by the
termination measure of the search. -/
def nodesOf (deps : List Dependency) : List String :=
  deps.map (fun d => d.parentID) ++ deps.map (fun d => d.childID)

/-- Termination measure of the search: each unvisited node occurrence
outweighs the queue growth of any single step. -/
def bfsMeasure (deps : List Dependency) (visited queue : List String) : Nat :=
  (nodesOf deps).countP (fun x => !(decide (x ∈ visited))) * (deps.length + 1)
    + queue.length

/-- Embeds the breadth-first loop of wouldCreateCycle: pop the next
node, skip it when already visited, return true when some outgoing
dependency of the node hits the target, otherwise mark the node visited
and enqueue its not-yet-visited children.  The fuel argument only makes
the recursion structural; callers supply more fuel than the measure,
which strictly decreases at every step, so the search never runs out. -/
def bfsFindsTarget (deps : List Dependency) (blocker : String) :
    Nat → List String → List String → Bool
  | 0, _, _ => false
  | _ + 1, _, [] => false
  | fuel + 1, visited, current :: rest =>
      if current ∈ visited then bfsFindsTarget deps blocker fuel visited rest
      else if (deps.filter (fun d => d.parentID == current)).any
          (fun d => d.childID == blocker) then true
      else
        bfsFindsTarget deps blocker fuel (visited ++ [current])
          (rest ++ ((deps.filter (fun d => d.parentID == current)).map
              (fun d => d.childID)).filter
            (fun c => !((visited ++ [current]).contains c)))

/-- Embeds wouldCreateCycle: whether blockedID can reach blockerID
through existing dependencies (of any type). -/
def wouldCreateCycle (deps : List Dependency) (blockerID blockedID : String) : Bool :=
  bfsFindsTarget deps blockerID (bfsMeasure deps [] [blockedID] + 1) [] [blockedID]

/-! ### Soundness and completeness of the search -/

lemma bfs_sound (deps : List Dependency) (blocker start : String) :
    ∀ fuel visited queue, (∀ x ∈ queue, Reach deps start x) →
      bfsFindsTarget deps blocker fuel visited queue = true →
      ReachPlus deps start blocker := by
  intro fuel
  induction fuel with
  | zero =>
    intro visited queue _ h
    simp [bfsFindsTarget] at h
  | succ fuel ih =>
    intro visited queue hq h
    cases queue with
    | nil => simp [bfsFindsTarget] at h
    | cons current rest =>
      by_cases hv : current ∈ visited
      · rw [bfsFindsTarget, if_pos hv] at h
        exact ih visited rest (fun x hx => hq x (by simp [hx])) h
      · rw [bfsFindsTarget, if_neg hv] at h
        by_cases hany : (deps.filter (fun d => d.parentID == current)).any
            (fun d => d.childID == blocker) = true
        · obtain ⟨d, hd, hdb⟩ := List.any_eq_true.mp hany
          have hdmem : d ∈ deps := (List.mem_filter.mp hd).1
          have hdp : d.parentID = current := by
            have hb := (List.mem_filter.mp hd).2
            exact beq_iff_eq.mp hb
          exact ⟨current, hq current (by simp), d, hdmem, hdp, beq_iff_eq.mp hdb⟩
        · rw [if_neg hany] at h
          refine ih (visited ++ [current]) _ ?_ h
          intro x hx
          rcases List.mem_append.mp hx with hx | hx
          · exact hq x (by simp [hx])
          · have hx1 := (List.mem_filter.mp hx).1
            obtain ⟨d, hd, hdc⟩ := List.mem_map.mp hx1
            have hdmem : d ∈ deps := (List.mem_filter.mp hd).1
            have hdp : d.parentID = current := beq_iff_eq.mp (List.mem_filter.mp hd).2
            exact (hq current (by simp)).tail ⟨d, hdmem, hdp, hdc⟩

lemma countP_lt_of_mem {p q : String → Bool} (l : List String) (a : String)
    (ha : a ∈ l) (hpa : p a = true) (hqa : q a = false)
    (himp : ∀ x, q x = true → p x = true) :
    l.countP q < l.countP p := by
  induction l with
  | nil => simp at ha
  | cons b l ih =>
    rcases List.mem_cons.mp ha with rfl | hm
    · have hle : l.countP q ≤ l.countP p :=
        List.countP_mono_left (fun x _ hx => himp x hx)
      simp [List.countP_cons, hpa, hqa]
      omega
    · by_cases hqb : q b = true
      · have hpb := himp b hqb
        simp [List.countP_cons, hpb, hqb]
        have := ih hm
        omega
      · have hqb' : q b = false := by
          cases hq : q b
          · rfl
          · exact absurd hq hqb
        have hih := ih hm
        by_cases hpb : p b = true
        · simp [List.countP_cons, hpb, hqb']
          omega
        · have hpb' : p b = false := by
            cases hp : p b
            · rfl
            · exact absurd hp hpb
          simp [List.countP_cons, hpb', hqb']
          omega

lemma visited_extend_imp (visited : List String) (current : String) :
    ∀ x : String, (!(decide (x ∈ visited ++ [current]))) = true →
      (!(decide (x ∈ visited))) = true := by
  intro x hx
  simp only [Bool.not_eq_true', decide_eq_false_iff_not, List.mem_append] at hx ⊢
  exact fun hmem => hx (Or.inl hmem)

lemma pushed_length_le (deps : List Dependency) (current : String)
    (visited' : List String) :
    (((deps.filter (fun d => d.parentID == current)).map
        (fun d => d.childID)).filter (fun c => !(visited'.contains c))).length
      ≤ deps.length := by
  calc (((deps.filter (fun d => d.parentID == current)).map
        (fun d => d.childID)).filter (fun c => !(visited'.contains c))).length
      ≤ (((deps.filter (fun d => d.parentID == current)).map
        (fun d => d.childID))).length := List.length_filter_le _ _
    _ = (deps.filter (fun d => d.parentID == current)).length := List.length_map _ _
    _ ≤ deps.length := List.length_filter_le _ _

lemma outgoing_nil_of_not_node (deps : List Dependency) (current : String)
    (hc : ¬ current ∈ nodesOf deps) :
    deps.filter (fun d => d.parentID == current) = [] := by
  rw [List.filter_eq_nil_iff]
  intro d hd hbeq
  refine hc (List.mem_append.mpr (Or.inl ?_))
  exact List.mem_map.mpr ⟨d, hd, beq_iff_eq.mp hbeq⟩

/-- The measure strictly decreases when a fresh node is expanded. -/
lemma bfsMeasure_visit (deps : List Dependency) (visited rest : List String)
    (current : String) (hv : ¬ current ∈ visited) :
    bfsMeasure deps (visited ++ [current])
      (rest ++ ((deps.filter (fun d => d.parentID == current)).map
          (fun d => d.childID)).filter
        (fun c => !((visited ++ [current]).contains c)))
      < bfsMeasure deps visited (current :: rest) := by
  unfold bfsMeasure
  rw [List.length_append]
  by_cases hn : current ∈ nodesOf deps
  · have hstrict : (nodesOf deps).countP
        (fun x => !(decide (x ∈ visited ++ [current]))) <
        (nodesOf deps).countP (fun x => !(decide (x ∈ visited))) := by
      refine countP_lt_of_mem (nodesOf deps) current hn ?_ ?_
        (visited_extend_imp visited current)
      · simp [hv]
      · simp
    have hpush := pushed_length_le deps current (visited ++ [current])
    have hrest : (current :: rest).length = rest.length + 1 := by simp
    rw [hrest]
    have h1 : (nodesOf deps).countP
        (fun x => !(decide (x ∈ visited ++ [current]))) + 1 ≤
        (nodesOf deps).countP (fun x => !(decide (x ∈ visited))) := hstrict
    nlinarith [hstrict, hpush]
  · have hout := outgoing_nil_of_not_node deps current hn
    rw [hout]
    simp only [List.map_nil, List.filter_nil, List.length_nil, List.length_cons]
    have hle : (nodesOf deps).countP
        (fun x => !(decide (x ∈ visited ++ [current]))) ≤
        (nodesOf deps).countP (fun x => !(decide (x ∈ visited))) :=
      List.countP_mono_left (fun x _ hx => visited_extend_imp visited current x hx)
    nlinarith [hle]

/-- Once the frontier is exhausted the visited set is closed under
successors and contains no predecessor of the target, so nothing in it
reaches the target. -/
lemma closed_no_reach (deps : List Dependency) (blocker : String)
    (visited : List String)
    (h1 : ∀ v ∈ visited, ¬ HasEdge deps v blocker)
    (h2 : ∀ v ∈ visited, ∀ d ∈ deps, d.parentID = v → d.childID ∈ visited) :
    ∀ x ∈ visited, ¬ ReachPlus deps x blocker := by
  rintro x hx ⟨w, hreach, hedge⟩
  have hw : w ∈ visited := by
    clear hedge
    induction hreach with
    | refl => exact hx
    | tail _hab hbc ih =>
      obtain ⟨d, hd, hdp, hdc⟩ := hbc
      exact hdc ▸ h2 _ ih d hd hdp
  exact h1 w hw hedge

lemma bfs_complete (deps : List Dependency) (blocker : String) :
    ∀ fuel visited queue,
      bfsMeasure deps visited queue < fuel →
      (∀ v ∈ visited, ¬ HasEdge deps v blocker) →
      (∀ v ∈ visited, ∀ d ∈ deps, d.parentID = v →
        d.childID ∈ visited ∨ d.childID ∈ queue) →
      bfsFindsTarget deps blocker fuel visited queue = false →
      ∀ x, (x ∈ visited ∨ x ∈ queue) → ¬ ReachPlus deps x blocker := by
  intro fuel
  induction fuel with
  | zero => intro visited queue hm; omega
  | succ fuel ih =>
    intro visited queue hm h1 h2 hres x hx
    cases queue with
    | nil =>
      have h2' : ∀ v ∈ visited, ∀ d ∈ deps, d.parentID = v → d.childID ∈ visited := by
        intro v hv d hd hdp
        rcases h2 v hv d hd hdp with h | h
        · exact h
        · simp at h
      rcases hx with hx | hx
      · exact closed_no_reach deps blocker visited h1 h2' x hx
      · simp at hx
    | cons current rest =>
      by_cases hv : current ∈ visited
      · rw [bfsFindsTarget, if_pos hv] at hres
        have hm' : bfsMeasure deps visited rest < fuel := by
          unfold bfsMeasure at hm ⊢
          simp only [List.length_cons] at hm
          omega
        have h2' : ∀ v ∈ visited, ∀ d ∈ deps, d.parentID = v →
            d.childID ∈ visited ∨ d.childID ∈ rest := by
          intro v hvv d hd hdp
          rcases h2 v hvv d hd hdp with h | h
          · exact Or.inl h
          · rcases List.mem_cons.mp h with rfl | h
            · exact Or.inl hv
            · exact Or.inr h
        refine ih visited rest hm' h1 h2' hres x ?_
        rcases hx with hx | hx
        · exact Or.inl hx
        · rcases List.mem_cons.mp hx with rfl | hx
          · exact Or.inl hv
          · exact Or.inr hx
      · rw [bfsFindsTarget, if_neg hv] at hres
        by_cases hany : (deps.filter (fun d => d.parentID == current)).any
            (fun d => d.childID == blocker) = true
        · rw [if_pos hany] at hres
          exact absurd hres (by simp)
        · rw [if_neg hany] at hres
          have hm' : bfsMeasure deps (visited ++ [current])
              (rest ++ ((deps.filter (fun d => d.parentID == current)).map
                  (fun d => d.childID)).filter
                (fun c => !((visited ++ [current]).contains c))) < fuel := by
            have := bfsMeasure_visit deps visited rest current hv
            omega
          have h1' : ∀ v ∈ visited ++ [current], ¬ HasEdge deps v blocker := by
            intro v hvv
            rcases List.mem_append.mp hvv with hvv | hvv
            · exact h1 v hvv
            · rcases List.mem_singleton.mp hvv with rfl
              rintro ⟨d, hd, hdp, hdc⟩
              refine absurd (List.any_eq_true.mpr ⟨d, ?_, ?_⟩) hany
              · exact List.mem_filter.mpr ⟨hd, beq_iff_eq.mpr hdp⟩
              · exact beq_iff_eq.mpr hdc
          have h2' : ∀ v ∈ visited ++ [current], ∀ d ∈ deps, d.parentID = v →
              d.childID ∈ visited ++ [current] ∨
              d.childID ∈ rest ++ ((deps.filter (fun d => d.parentID == current)).map
                  (fun d => d.childID)).filter
                (fun c => !((visited ++ [current]).contains c)) := by
            intro v hvv d hd hdp
            rcases List.mem_append.mp hvv with hvv | hvv
            · rcases h2 v hvv d hd hdp with h | h
              · exact Or.inl (List.mem_append.mpr (Or.inl h))
              · rcases List.mem_cons.mp h with hcur | h
                · exact Or.inl (List.mem_append.mpr (Or.inr (by simp [hcur])))
                · exact Or.inr (List.mem_append.mpr (Or.inl h))
            · have hveq : v = current := List.mem_singleton.mp hvv
              rw [hveq] at hdp
              by_cases hvc : d.childID ∈ visited ++ [current]
              · exact Or.inl hvc
              · refine Or.inr (List.mem_append.mpr (Or.inr ?_))
                refine List.mem_filter.mpr ⟨?_, ?_⟩
                · exact List.mem_map.mpr ⟨d,
                    List.mem_filter.mpr ⟨hd, beq_iff_eq.mpr hdp⟩, rfl⟩
                · simp only [Bool.not_eq_true']
                  rw [← Bool.not_eq_true]
                  intro hcon
                  exact hvc (List.elem_iff.mp hcon)
          refine ih (visited ++ [current]) _ hm' h1' h2' hres x ?_
          rcases hx with hx | hx
          · exact Or.inl (List.mem_append.mpr (Or.inl hx))
          · rcases List.mem_cons.mp hx with rfl | hx
            · exact Or.inl (List.mem_append.mpr (Or.inr (by simp)))
            · exact Or.inr (List.mem_append.mpr (Or.inl hx))

/-- The cycle check answers exactly reachability (through at least one
edge, of any type) from the blocked task to the proposed blocker. -/
lemma wouldCreateCycle_iff (deps : List Dependency) (blockerID blockedID : String) :
    wouldCreateCycle deps blockerID blockedID = true ↔
      ReachPlus deps blockedID blockerID := by
  constructor
  · intro h
    refine bfs_sound deps blockerID blockedID _ [] [blockedID] ?_ h
    intro x hx
    rcases List.mem_singleton.mp hx with rfl
    exact Relation.ReflTransGen.refl
  · intro hreach
    by_contra hfalse
    have hb : bfsFindsTarget deps blockerID
        (bfsMeasure deps [] [blockedID] + 1) [] [blockedID] = false := by
      rcases hres : bfsFindsTarget deps blockerID
          (bfsMeasure deps [] [blockedID] + 1) [] [blockedID]
      · rfl
      · exact absurd hres hfalse
    exact bfs_complete deps blockerID _ [] [blockedID]
      (Nat.lt_succ_self _) (by simp) (by simp) hb blockedID (Or.inr (by simp)) hreach

/-! ### The dependency commands -/

/-- Errors of the add command; the circular error names both ids,
mirroring the message text of runDepAdd. -/
inductive DepError
  | blockerNotFound (id : String)
  | blockedNotFound (id : String)
  | selfBlock
  | circular (blockerID blockedID : String)
deriving DecidableEq

/-- Embeds runDepAdd: look up both tasks, reject self-blocking, reject
when the blocked task already reaches the blocker, otherwise insert the
row (the BeforeCreate hook defaults an empty type tag to blocks). -/
def runDepAdd (tasks : List String) (deps : List Dependency)
    (blockerID blockedID depType : String) : Except DepError (List Dependency) :=
  if ¬ blockerID ∈ tasks then .error (.blockerNotFound blockerID)
  else if ¬ blockedID ∈ tasks then .error (.blockedNotFound blockedID)
  else if blockerID = blockedID then .error .selfBlock
  else if wouldCreateCycle deps blockerID blockedID then
    .error (.circular blockerID blockedID)
  else .ok (deps ++ [Dependency.mk blockerID blockedID
    (if depType = "" then DepTypeBlocks else depType)])

/-- Errors of the remove command. -/
inductive DepRemoveError
  | blockerNotFound (id : String)
  | blockedNotFound (id : String)
  | notFound (blockerID blockedID : String)
deriving DecidableEq

/-- Embeds runDepRemove: look up both tasks, delete every dependency
row between the pair (any type tag); report not-found when no row was
affected. -/
def runDepRemove (tasks : List String) (deps : List Dependency)
    (blockerID blockedID : String) : Except DepRemoveError (List Dependency) :=
  if ¬ blockerID ∈ tasks then .error (.blockerNotFound blockerID)
  else if ¬ blockedID ∈ tasks then .error (.blockedNotFound blockedID)
  else if (deps.filter (fun d =>
      !(d.parentID == blockerID && d.childID == blockedID))).length = deps.length
    then .error (.notFound blockerID blockedID)
  else .ok (deps.filter (fun d =>
    !(d.parentID == blockerID && d.childID == blockedID)))

lemma runDepAdd_ok (tasks : List String) (deps : List Dependency)
    (blockerID blockedID depType : String) (deps' : List Dependency)
    (h : runDepAdd tasks deps blockerID blockedID depType = .ok deps') :
    deps' = deps ++ [Dependency.mk blockerID blockedID
      (if depType = "" then DepTypeBlocks else depType)] ∧
    wouldCreateCycle deps blockerID blockedID = false ∧ blockerID ≠ blockedID := by
  unfold runDepAdd at h
  split_ifs at h with h1 h2 h3 h4 h5
  · injection h with h6
    refine ⟨?_, ?_, h3⟩
    · rw [if_pos h5]
      exact h6.symm
    · cases hwc : wouldCreateCycle deps blockerID blockedID
      · rfl
      · exact absurd hwc h4
  · injection h with h6
    refine ⟨?_, ?_, h3⟩
    · rw [if_neg h5]
      exact h6.symm
    · cases hwc : wouldCreateCycle deps blockerID blockedID
      · rfl
      · exact absurd hwc h4

lemma runDepRemove_ok (tasks : List String) (deps : List Dependency)
    (blockerID blockedID : String) (deps' : List Dependency)
    (h : runDepRemove tasks deps blockerID blockedID = .ok deps') :
    ∀ d ∈ deps', d ∈ deps := by
  unfold runDepRemove at h
  split_ifs at h with h1 h2 h3
  injection h with h4
  intro d hd
  rw [← h4] at hd
  exact List.mem_of_mem_filter hd

/-! ### Acyclicity preservation -/

lemma hasEdge_of_blocks {deps : List Dependency} {a b : String}
    (h : HasBlocksEdge deps a b) : HasEdge deps a b := by
  obtain ⟨d, hd, hp, hc, -⟩ := h
  exact ⟨d, hd, hp, hc⟩

lemma hasBlocksEdge_subset {deps deps' : List Dependency}
    (hsub : ∀ d ∈ deps', d ∈ deps) {a b : String}
    (h : HasBlocksEdge deps' a b) : HasBlocksEdge deps a b := by
  obtain ⟨d, hd, hp, hc, ht⟩ := h
  exact ⟨d, hsub d hd, hp, hc, ht⟩

lemma acyclic_subset (deps deps' : List Dependency)
    (hsub : ∀ d ∈ deps', d ∈ deps) (hacy : AcyclicBlocks deps) :
    AcyclicBlocks deps' := by
  intro x hx
  obtain ⟨w, hstar, hedge⟩ := hx
  exact hacy x ⟨w, hstar.mono (fun _ _ hxy => hasBlocksEdge_subset hsub hxy),
    hasBlocksEdge_subset hsub hedge⟩

/-- Splitting lemma: a path in an extended relation either stays in the
base relation or reaches the source of the distinguished extra edge,
with the remainder still a path of the extended relation. -/
lemma reach_split {α : Type} (r r' : α → α → Prop) (a b : α)
    (hsub : ∀ x y, r' x y → r x y ∨ (x = a ∧ y = b)) :
    ∀ u v, Relation.ReflTransGen r' u v →
      Relation.ReflTransGen r u v ∨
        (Relation.ReflTransGen r u a ∧ Relation.ReflTransGen r' b v) := by
  intro u v h
  induction h using Relation.ReflTransGen.head_induction_on with
  | refl => exact Or.inl Relation.ReflTransGen.refl
  | head hxy hyv ih =>
    rcases hsub _ _ hxy with hr | ⟨rfl, rfl⟩
    · rcases ih with ih | ⟨ih1, ih2⟩
      · exact Or.inl (ih.head hr)
      · exact Or.inr ⟨ih1.head hr, ih2⟩
    · exact Or.inr ⟨Relation.ReflTransGen.refl, hyv⟩

/-- Adding an edge whose target cannot already reach its source (in the
whole dependency graph) preserves acyclicity of the blocks subgraph. -/
lemma acyclic_add (deps : List Dependency) (e : Dependency)
    (hacy : AcyclicBlocks deps)
    (hnr : ¬ ReachPlus deps e.childID e.parentID)
    (hne : e.parentID ≠ e.childID) :
    AcyclicBlocks (deps ++ [e]) := by
  intro x hx
  obtain ⟨w, hstar, hedge⟩ := hx
  by_cases htyp : e.typ = DepTypeBlocks
  · -- the new edge is a blocks edge; decompose paths at its uses
    have hsub : ∀ u v, HasBlocksEdge (deps ++ [e]) u v →
        HasBlocksEdge deps u v ∨ (u = e.parentID ∧ v = e.childID) := by
      rintro u v ⟨d, hd, hp, hc, ht⟩
      rcases List.mem_append.mp hd with hd | hd
      · exact Or.inl ⟨d, hd, hp, hc, ht⟩
      · rcases List.mem_singleton.mp hd with rfl
        exact Or.inr ⟨hp.symm, hc.symm⟩
    have hlift : ∀ u v, HasBlocksEdge deps u v → HasBlocksEdge (deps ++ [e]) u v :=
      fun u v hh => hasBlocksEdge_subset (fun d hd => List.mem_append.mpr (Or.inl hd)) hh
    -- derive a path from the new edge's target back to its source
    have hba : Relation.ReflTransGen (HasBlocksEdge (deps ++ [e])) e.childID e.parentID := by
      rcases hsub w x hedge with hr | ⟨rfl, rfl⟩
      · rcases reach_split (HasBlocksEdge deps) (HasBlocksEdge (deps ++ [e]))
            e.parentID e.childID hsub x w hstar with hl | ⟨h1, h2⟩
        · exact absurd ⟨w, hl, hr⟩ (hacy x)
        · exact h2.trans ((Relation.ReflTransGen.single (hlift w x hr)).trans
            (h1.mono hlift))
      · exact hstar
    have hba' : Relation.ReflTransGen (HasBlocksEdge deps) e.childID e.parentID := by
      rcases reach_split (HasBlocksEdge deps) (HasBlocksEdge (deps ++ [e]))
          e.parentID e.childID hsub e.childID e.parentID hba with hl | ⟨h1, -⟩
      · exact hl
      · exact h1
    rcases hba'.cases_tail with heq | ⟨c, hbc, hca⟩
    · exact hne heq
    · exact hnr ⟨c, hbc.mono (fun _ _ hxy => hasEdge_of_blocks hxy), hasEdge_of_blocks hca⟩
  · -- the new edge is not a blocks edge: the blocks subgraph is unchanged
    have hsub : ∀ d ∈ deps ++ [e], d.typ = DepTypeBlocks → d ∈ deps := by
      intro d hd ht
      rcases List.mem_append.mp hd with hd | hd
      · exact hd
      · rcases List.mem_singleton.mp hd with rfl
        exact absurd ht htyp
    have htrans : ∀ u v, HasBlocksEdge (deps ++ [e]) u v → HasBlocksEdge deps u v := by
      rintro u v ⟨d, hd, hp, hc, ht⟩
      exact ⟨d, hsub d hd ht, hp, hc, ht⟩
    exact hacy x ⟨w, hstar.mono htrans, htrans w x hedge⟩

/-- One successful dependency mutation: an add (of any type tag) or a
remove, as performed by runDepAdd and runDepRemove. -/
inductive DepStep (tasks : List String) : List Dependency → List Dependency → Prop
  | add (blockerID blockedID depType : String) (deps deps' : List Dependency) :
      runDepAdd tasks deps blockerID blockedID depType = .ok deps' →
      DepStep tasks deps deps'
  | remove (blockerID blockedID : String) (deps deps' : List Dependency) :
      runDepRemove tasks deps blockerID blockedID = .ok deps' →
      DepStep tasks deps deps'

lemma acyclicBlocks_nil : AcyclicBlocks ([] : List Dependency) := by
  rintro x ⟨w, -, d, hd, -⟩
  exact absurd hd (List.not_mem_nil d)

deriving instance DecidableEq for Except

/-! ### Claims C4 and C5 -/

/-- Task id used in concrete dependency examples. -/
def idA : String := "A"

/-- Task id used in concrete dependency examples. -/
def idB : String := "B"

/-- Task table for the concrete dependency examples. -/
def exTasksAB : List String := [idA, idB]

/-- Dependency table for the C4 counterexample: a single related-type
edge recording that B blocks A is already on file. -/
def exDepsRelated : List Dependency := [Dependency.mk idB idA DepTypeRelated]

/-- C4 counterexample: with only a related-type edge from B to A on
file, adding the blocks edge A blocks B is rejected as circular even
though A is not reachable from B through blocks edges, so the
reachability search of the cycle check is not restricted to edges of
type blocks as claimed. -/
theorem c4_counterexample :
    runDepAdd exTasksAB exDepsRelated idA idB DepTypeBlocks =
      .error (.circular idA idB) ∧
    ¬ ReachBPlus exDepsRelated idB idA := by
  refine ⟨by decide, ?_⟩
  rintro ⟨w, -, d, hd, -, -, htyp⟩
  simp only [exDepsRelated, List.mem_singleton] at hd
  rw [hd] at htyp
  exact absurd htyp (by decide)

/-- C4 (amended): for distinct existing tasks, adding a blocker runs
the breadth-first reachability search over outgoing dependency edges of
every type, not only blocks edges: the call fails with the cycle error
naming both ids exactly when the blocker is reachable from the blocked
task through at least one dependency edge of any type, and otherwise
the blocks edge is inserted. -/
theorem c4_cycle_check_all_edges (tasks : List String) (deps : List Dependency)
    (blockerID blockedID : String)
    (hb : blockerID ∈ tasks) (hc : blockedID ∈ tasks) (hne : blockerID ≠ blockedID) :
    (runDepAdd tasks deps blockerID blockedID DepTypeBlocks =
        .error (.circular blockerID blockedID) ↔
      ReachPlus deps blockedID blockerID) ∧
    (runDepAdd tasks deps blockerID blockedID DepTypeBlocks =
        .ok (deps ++ [Dependency.mk blockerID blockedID DepTypeBlocks]) ↔
      ¬ ReachPlus deps blockedID blockerID) := by
  unfold runDepAdd
  rw [if_neg (by simpa using hb), if_neg (by simpa using hc), if_neg hne]
  have hts : (if DepTypeBlocks = "" then DepTypeBlocks else DepTypeBlocks) =
      DepTypeBlocks := ite_self DepTypeBlocks
  by_cases hcyc : wouldCreateCycle deps blockerID blockedID = true
  · rw [if_pos hcyc]
    have hr := (wouldCreateCycle_iff deps blockerID blockedID).mp hcyc
    exact ⟨iff_of_true rfl hr, iff_of_false (by simp) (not_not_intro hr)⟩
  · rw [if_neg hcyc]
    have hnr : ¬ ReachPlus deps blockedID blockerID := fun hr =>
      hcyc ((wouldCreateCycle_iff deps blockerID blockedID).mpr hr)
    refine ⟨iff_of_false (by simp) hnr, iff_of_true ?_ hnr⟩
    rw [hts]

/-- Witness for the amended C4 at the empty dependency table: adding
A blocks B succeeds and is not reported circular. -/
theorem c4_cycle_check_all_edges_witness :
    (idA ∈ exTasksAB ∧ idB ∈ exTasksAB ∧ idA ≠ idB) ∧
    ((runDepAdd exTasksAB [] idA idB DepTypeBlocks =
        .error (.circular idA idB) ↔ ReachPlus [] idB idA) ∧
      (runDepAdd exTasksAB [] idA idB DepTypeBlocks =
        .ok ([] ++ [Dependency.mk idA idB DepTypeBlocks]) ↔
      ¬ ReachPlus [] idB idA)) :=
  ⟨⟨by decide, by decide, by decide⟩,
    c4_cycle_check_all_edges exTasksAB [] idA idB (by decide) (by decide) (by decide)⟩

/-- C5: starting from a state whose blocks subgraph is acyclic, after
every sequence of successful add and remove operations the blocks
subgraph is still acyclic, and no dependency row of type blocks relates
a task to itself. -/
theorem c5_blocks_acyclic_preserved (tasks : List String)
    (deps deps' : List Dependency) (hacy : AcyclicBlocks deps)
    (hsteps : Relation.ReflTransGen (DepStep tasks) deps deps') :
    AcyclicBlocks deps' ∧
    ∀ d ∈ deps', d.typ = DepTypeBlocks → d.parentID ≠ d.childID := by
  have hacy' : AcyclicBlocks deps' := by
    induction hsteps with
    | refl => exact hacy
    | tail _hpre hstep ih =>
      cases hstep with
      | add blockerID blockedID depType dmid dmid' hok =>
        obtain ⟨rfl, hcyc, hne⟩ :=
          runDepAdd_ok tasks _ blockerID blockedID depType _ hok
        refine acyclic_add _ _ ih ?_ hne
        intro hr
        rw [(wouldCreateCycle_iff _ blockerID blockedID).mpr hr] at hcyc
        exact absurd hcyc (by simp)
      | remove blockerID blockedID dmid dmid' hok =>
        exact acyclic_subset _ _
          (runDepRemove_ok tasks _ blockerID blockedID _ hok) ih
  refine ⟨hacy', ?_⟩
  intro d hd htyp heq
  exact hacy' d.parentID ⟨d.parentID, Relation.ReflTransGen.refl,
    d, hd, rfl, heq.symm, htyp⟩

/-- The blocks edge inserted by the C5 witness step. -/
def exDepAB : Dependency := Dependency.mk idA idB DepTypeBlocks

/-- Witness for C5: the empty table is acyclic, and it still is after
the successful step that adds A blocks B. -/
theorem c5_blocks_acyclic_preserved_witness :
    AcyclicBlocks ([] : List Dependency) ∧
    (AcyclicBlocks [exDepAB] ∧
      ∀ d ∈ [exDepAB], d.typ = DepTypeBlocks → d.parentID ≠ d.childID) :=
  ⟨acyclicBlocks_nil,
    c5_blocks_acyclic_preserved exTasksAB [] [exDepAB] acyclicBlocks_nil
      (Relation.ReflTransGen.single
        (DepStep.add idA idB DepTypeBlocks [] [exDepAB] (by decide)))⟩

/-! ## Tasks, gates, links, history (internal/models, cmd/gate.go) -/

/-- Status constant StatusOpen. -/
def StatusOpen : String := "open"

/-- Status constant StatusInProgress. -/
def StatusInProgress : String := "in_progress"

/-- Status constant StatusClosed. -/
def StatusClosed : String := "closed"

/-- Status constant StatusArchived. -/
def StatusArchived : String := "archived"

/-- Gate link status constant GateLinkPending. -/
def GateLinkPending : String := "pending"

/-- Gate link status constant GateLinkPassed. -/
def GateLinkPassed : String := "passed"

/-- Gate link status constant GateLinkFailed. -/
def GateLinkFailed : String := "failed"

/-- Gate result constant GatePending. -/
def GatePending : String := "pending"

/-- Gate result constant GatePassed. -/
def GatePassed : String := "passed"

/-- Gate result constant GateFailed. -/
def GateFailed : String := "failed"

/-- Gate result constant GateSkipped. -/
def GateSkipped : String := "skipped"

/-- The empty string value of an unset text column. -/
def emptyStr : String := ""

/-- Embeds the fields of models.Task that the claims concern; the
remaining columns (title, priority, labels and so on) play no role in
any claim and are omitted from the record. -/
structure Task where
  id : String
  parentID : String
  status : String
  closeReason : String
  closedAt : Option Nat
deriving DecidableEq

/-- Embeds models.GateTaskLink: the per-task verification status lives
on the link (verifier and notes are not involved in any claim). -/
structure GateTaskLink where
  gateID : String
  taskID : String
  status : String
deriving DecidableEq

/-- Embeds models.TaskHistory. -/
structure TaskHistory where
  id : String
  taskID : String
  field : String
  oldValue : String
  newValue : String
  changedBy : String
  changedAt : Nat
deriving DecidableEq

/-- The live rows of the store tables the closure workflow consults:
tasks, dependencies, the ids of existing gates, gate-task links, and
history entries. -/
structure Store where
  tasks : List Task
  deps : List Dependency
  gates : List String
  links : List GateTaskLink
  history : List TaskHistory
deriving DecidableEq

/-- Embeds db.GetTaskByID: the first task row with the given id. -/
def GetTaskByID (tasks : List Task) (id : String) : Option Task :=
  tasks.find? (fun t => t.id == id)

/-- Embeds models.RecordChange together with the row insertion done by
the store: a no-op returning the unchanged table when the old and new
values coincide, otherwise one appended row carrying the generated
identifier (BeforeCreate hook) and the current timestamp. -/
def RecordChange (history : List TaskHistory)
    (taskID fieldName oldValue newValue changedBy : String)
    (newID : String) (now : Nat) : List TaskHistory :=
  if oldValue = newValue then history
  else history ++
    [TaskHistory.mk newID taskID fieldName oldValue newValue changedBy now]

/-- Embeds GetGateLinksForTask: live links of the task whose gate still
exists (links whose gate lookup fails are skipped). -/
def GetGateLinksForTask (gates : List String) (links : List GateTaskLink)
    (taskID : String) : List GateTaskLink :=
  (links.filter (fun l => l.taskID == taskID)).filter
    (fun l => gates.contains l.gateID)

/-- Embeds GetFailingGateLinksForTask: linked gates whose per-task
status is not passed. -/
def GetFailingGateLinksForTask (gates : List String) (links : List GateTaskLink)
    (taskID : String) : List GateTaskLink :=
  (GetGateLinksForTask gates links taskID).filter
    (fun l => !(l.status == GateLinkPassed))

/-- Failure cases of CheckGatesBeforeClose: no gate linked, or some
linked gates not verified (carrying the offending links, which the
command renders for the caller). -/
inductive GateCloseError
  | noGatesLinked (taskID : String)
  | gatesNotVerified (failing : List GateTaskLink)
deriving DecidableEq

/-- Embeds CheckGatesBeforeClose: at least one gate must be linked and
every linked gate's per-task status must be passed; a failure reports
either the absence of links or the list of non-passing links. -/
def CheckGatesBeforeClose (gates : List String) (links : List GateTaskLink)
    (taskID : String) : Option GateCloseError :=
  if (GetGateLinksForTask gates links taskID).length = 0 then
    some (.noGatesLinked taskID)
  else if 0 < (GetFailingGateLinksForTask gates links taskID).length then
    some (.gatesNotVerified (GetFailingGateLinksForTask gates links taskID))
  else none

/-! ## Closure workflow (cmd/close.go) and the update status branch -/

/-- Field name recorded for status transitions. -/
def fieldStatus : String := "status"

/-- Field name recorded for the close reason. -/
def fieldCloseReason : String := "close_reason"

/-- Actor recorded by the commands. -/
def userActor : String := "user"

/-- The confirmation answer accepted by the forced path. -/
def yesAnswer : String := "yes"

/-- Prefix recorded on the close reason of a confirmed forced close. -/
def forceClosedTag : String := "[FORCE CLOSED] "

/-- Embeds Task.Close: status closed, reason stored, closed-at set to
the current time. -/
def Task.Close (t : Task) (reason : String) (now : Nat) : Task :=
  { t with status := StatusClosed, closeReason := reason, closedAt := some now }

/-- Embeds Task.Reopen: status open, close metadata cleared. -/
def Task.Reopen (t : Task) : Task :=
  { t with status := StatusOpen, closeReason := emptyStr, closedAt := none }

/-- Embeds the open-blocker count of runClose: dependency rows of type
blocks whose blocked side is the task, joined with an existing blocker
task whose status is not closed. -/
def openBlockerCount (tasks : List Task) (deps : List Dependency)
    (taskID : String) : Nat :=
  (deps.filter (fun d => d.childID == taskID && d.typ == DepTypeBlocks &&
    tasks.any (fun t => t.id == d.parentID && !(t.status == StatusClosed)))).length

/-- Embeds the open-subtask count of runClose: task rows whose parent
reference is the task and whose status is not closed. -/
def openSubtaskCount (tasks : List Task) (taskID : String) : Nat :=
  (tasks.filter (fun t => t.parentID == taskID &&
    !(t.status == StatusClosed))).length

/-- Errors of the close command. -/
inductive CloseError
  | taskNotFound (id : String)
  | alreadyClosed (id : String) (closedAt : Option Nat) (reason : String)
  | openBlockers (id : String) (count : Nat)
  | openSubtasks (id : String) (count : Nat)
  | gatesNotReady (e : GateCloseError)
  | forceNonInteractive (e : GateCloseError)
  | forceCancelled
deriving DecidableEq

/-- The mutation performed by a successful close: two history rows (the
status transition and the close reason) and the task saved with
Task.Close applied. -/
def applyClose (st : Store) (task : Task) (reason : String)
    (histID1 histID2 : String) (now : Nat) : Store :=
  { st with
    history := RecordChange
      (RecordChange st.history task.id fieldStatus task.status StatusClosed
        userActor histID1 now)
      task.id fieldCloseReason emptyStr reason userActor histID2 now,
    tasks := st.tasks.map (fun u =>
      if u.id = task.id then Task.Close task reason now else u) }

/-- Embeds runClose: find the task; reject a second close; in the
unforced path check blockers, then subtasks, then gates; in the forced
path re-check only the gates, and when they fail demand an interactive
confirmation (the trimmed lowercased input must be yes) and prefix the
recorded reason; on success record the two history rows and save the
closed task.  The interactive flag models term.IsTerminal on standard
input and confirmation models the line read from it. -/
def runClose (st : Store) (id : String) (force interactive : Bool)
    (confirmation reason : String) (histID1 histID2 : String) (now : Nat) :
    Except CloseError Store :=
  match GetTaskByID st.tasks id with
  | none => .error (.taskNotFound id)
  | some task =>
    if task.status = StatusClosed then
      .error (.alreadyClosed task.id task.closedAt task.closeReason)
    else if !force then
      if 0 < openBlockerCount st.tasks st.deps task.id then
        .error (.openBlockers task.id (openBlockerCount st.tasks st.deps task.id))
      else if 0 < openSubtaskCount st.tasks task.id then
        .error (.openSubtasks task.id (openSubtaskCount st.tasks task.id))
      else
        match CheckGatesBeforeClose st.gates st.links task.id with
        | some e => .error (.gatesNotReady e)
        | none => .ok (applyClose st task reason histID1 histID2 now)
    else
      match CheckGatesBeforeClose st.gates st.links task.id with
      | some e =>
        if !interactive then .error (.forceNonInteractive e)
        else if !(confirmation = yesAnswer) then .error .forceCancelled
        else .ok (applyClose st task (forceClosedTag ++ reason) histID1 histID2 now)
      | none => .ok (applyClose st task reason histID1 histID2 now)

/-- Errors of the update command when only the status flag is given. -/
inductive UpdateError
  | taskNotFound (id : String)
  | closedTask (id : String)
  | invalidStatus (status id : String)
deriving DecidableEq

/-- Embeds runUpdate invoked with only the status flag changed: a
closed task may not move away from closed, the new status must be open,
in-progress or closed, and on success the task is saved with only its
status field replaced — no gate, blocker or subtask check runs, and
neither closedAt nor closeReason is touched. -/
def runUpdateStatus (st : Store) (id newStatus : String)
    (histID : String) (now : Nat) : Except UpdateError Store :=
  match GetTaskByID st.tasks id with
  | none => .error (.taskNotFound id)
  | some task =>
    if task.status = StatusClosed ∧ ¬ newStatus = StatusClosed then
      .error (.closedTask task.id)
    else if ¬ (newStatus = StatusOpen ∨ newStatus = StatusInProgress ∨
        newStatus = StatusClosed) then
      .error (.invalidStatus newStatus task.id)
    else
      .ok { st with
        history := RecordChange st.history task.id fieldStatus task.status
          newStatus userActor histID now,
        tasks := st.tasks.map (fun u =>
          if u.id = task.id then { task with status := newStatus } else u) }

/-! ## Gate counters (internal/models, Gate.RecordRun and Gate.PassRate) -/

/-- Embeds the run-tracking fields of models.Gate.  The counters are Go
ints that start at zero and are only ever incremented, so naturals
model them exactly. -/
structure Gate where
  lastResult : String
  lastRunAt : Option Nat
  lastRunBy : String
  lastRunNotes : String
  runCount : Nat
  passCount : Nat
  failCount : Nat
deriving DecidableEq

/-- Embeds Gate.RecordRun: remember the last run, always bump the run
count, bump the pass count on a passed result, otherwise bump the fail
count on a failed result; any other result (such as skipped) bumps
neither. -/
def Gate.RecordRun (g : Gate) (result runBy notes : String) (now : Nat) : Gate :=
  { g with
    lastResult := result, lastRunAt := some now, lastRunBy := runBy,
    lastRunNotes := notes,
    runCount := g.runCount + 1,
    passCount := if result = GatePassed then g.passCount + 1 else g.passCount,
    failCount := if result = GatePassed then g.failCount
      else if result = GateFailed then g.failCount + 1 else g.failCount }

/-- Constant GatePercentMultiplier. -/
def GatePercentMultiplier : ℚ := 100

/-- Embeds Gate.PassRate; the float64 arithmetic of the source is
modelled with exact rationals, which agrees with it on the zero guard
and preserves the claimed bounds. -/
def Gate.PassRate (g : Gate) : ℚ :=
  if g.runCount = 0 then 0
  else (g.passCount : ℚ) / (g.runCount : ℚ) * GatePercentMultiplier

/-- A gate with zero counters, as produced by gate create. -/
def zeroGate : Gate := Gate.mk GatePending none emptyStr emptyStr 0 0 0

/-- The gate reached from zero counters by a sequence of RecordRun
calls, each run given as result, verifier, notes and timestamp. -/
def gateAfterRuns (runs : List (String × String × String × Nat)) : Gate :=
  runs.foldl (fun g r => Gate.RecordRun g r.1 r.2.1 r.2.2.1 r.2.2.2) zeroGate

/-! ### Claim C8 -/

/-- C8: recording a change with equal old and new values succeeds
without touching the history table; with differing values it appends
exactly one entry carrying the task id, field, both values, actor,
generated identifier and timestamp, leaving every existing entry in
place. -/
theorem c8_record_change (history : List TaskHistory)
    (taskID fieldName oldValue newValue changedBy newID : String) (now : Nat) :
    (oldValue = newValue →
      RecordChange history taskID fieldName oldValue newValue changedBy newID now =
        history) ∧
    (¬ oldValue = newValue →
      RecordChange history taskID fieldName oldValue newValue changedBy newID now =
        history ++
          [TaskHistory.mk newID taskID fieldName oldValue newValue changedBy now] ∧
      (RecordChange history taskID fieldName oldValue newValue changedBy
        newID now).length = history.length + 1 ∧
      (RecordChange history taskID fieldName oldValue newValue changedBy
        newID now).take history.length = history) := by
  constructor
  · intro h
    unfold RecordChange
    rw [if_pos h]
  · intro h
    unfold RecordChange
    rw [if_neg h]
    refine ⟨rfl, by simp, ?_⟩
    rw [List.take_left]

/-- Witness for C8: a no-op call on equal values and an appending call
on differing values, both at concrete inputs. -/
theorem c8_record_change_witness :
    RecordChange [] idA fieldStatus StatusOpen StatusOpen userActor idB 0 = [] ∧
    (¬ StatusOpen = StatusClosed ∧
      RecordChange [] idA fieldStatus StatusOpen StatusClosed userActor idB 0 =
        [] ++ [TaskHistory.mk idB idA fieldStatus StatusOpen StatusClosed
          userActor 0]) :=
  ⟨(c8_record_change [] idA fieldStatus StatusOpen StatusOpen userActor idB 0).1 rfl,
    by decide,
    ((c8_record_change [] idA fieldStatus StatusOpen StatusClosed userActor
      idB 0).2 (by decide)).1⟩

/-! ### Claim C6 -/

/-- C6: the close-readiness check succeeds exactly when the task has at
least one linked gate and every linked gate's per-task status is
passed; zero linked gates is reported as its own failure, and any other
failure enumerates precisely the non-passing links (pending, failed and
skipped alike). -/
theorem c6_close_readiness (gates : List String) (links : List GateTaskLink)
    (taskID : String) :
    (CheckGatesBeforeClose gates links taskID = none ↔
      (GetGateLinksForTask gates links taskID ≠ [] ∧
        ∀ l ∈ GetGateLinksForTask gates links taskID,
          l.status = GateLinkPassed)) ∧
    (GetGateLinksForTask gates links taskID = [] ↔
      CheckGatesBeforeClose gates links taskID =
        some (.noGatesLinked taskID)) ∧
    (∀ f, CheckGatesBeforeClose gates links taskID =
        some (.gatesNotVerified f) →
      f = GetFailingGateLinksForTask gates links taskID ∧ f ≠ [] ∧
      ∀ l ∈ f, ¬ l.status = GateLinkPassed) := by
  have hfl : ∀ l, l ∈ GetFailingGateLinksForTask gates links taskID ↔
      (l ∈ GetGateLinksForTask gates links taskID ∧
        ¬ l.status = GateLinkPassed) := by
    intro l
    unfold GetFailingGateLinksForTask
    rw [List.mem_filter]
    simp
  have hflnil : GetFailingGateLinksForTask gates links taskID = [] ↔
      ∀ l ∈ GetGateLinksForTask gates links taskID,
        l.status = GateLinkPassed := by
    unfold GetFailingGateLinksForTask
    rw [List.filter_eq_nil_iff]
    constructor
    · intro h l hl
      simpa using h l hl
    · intro h l hl
      simpa using h l hl
  refine ⟨⟨?_, ?_⟩, ⟨?_, ?_⟩, ?_⟩
  · intro h
    unfold CheckGatesBeforeClose at h
    split_ifs at h with h1 h2
    refine ⟨fun hnil => h1 (by rw [hnil]; rfl), ?_⟩
    apply hflnil.mp
    have h2' : (GetFailingGateLinksForTask gates links taskID).length = 0 := by
      omega
    exact List.length_eq_zero.mp h2'
  · rintro ⟨hne, hall⟩
    unfold CheckGatesBeforeClose
    rw [if_neg, if_neg]
    · rw [hflnil.mpr hall]
      simp
    · intro hlen
      exact hne (List.length_eq_zero.mp hlen)
  · intro h
    unfold CheckGatesBeforeClose
    rw [if_pos (by rw [h]; rfl)]
  · intro h
    unfold CheckGatesBeforeClose at h
    split_ifs at h with h1 h2
    · exact List.length_eq_zero.mp h1
    · simp at h
  · intro f h
    unfold CheckGatesBeforeClose at h
    split_ifs at h with h1 h2
    · simp at h
    · simp only [Option.some.injEq, GateCloseError.gatesNotVerified.injEq] at h
      refine ⟨h.symm, ?_, ?_⟩
      · rw [← h]
        intro hnil
        rw [hnil] at h2
        simp at h2
      · intro l hl
        rw [← h] at hl
        exact (hfl l |>.mp hl).2

/-- Witness for C6: instantiation at a task with a single passed link,
where the check succeeds. -/
theorem c6_close_readiness_witness :
    (CheckGatesBeforeClose [idA] [GateTaskLink.mk idA idB GateLinkPassed] idB =
        none ↔
      (GetGateLinksForTask [idA] [GateTaskLink.mk idA idB GateLinkPassed] idB ≠
          [] ∧
        ∀ l ∈ GetGateLinksForTask [idA]
          [GateTaskLink.mk idA idB GateLinkPassed] idB,
          l.status = GateLinkPassed)) ∧
    (GetGateLinksForTask [idA] [GateTaskLink.mk idA idB GateLinkPassed] idB =
        [] ↔
      CheckGatesBeforeClose [idA] [GateTaskLink.mk idA idB GateLinkPassed] idB =
        some (.noGatesLinked idB)) ∧
    (∀ f, CheckGatesBeforeClose [idA]
        [GateTaskLink.mk idA idB GateLinkPassed] idB =
        some (.gatesNotVerified f) →
      f = GetFailingGateLinksForTask [idA]
        [GateTaskLink.mk idA idB GateLinkPassed] idB ∧ f ≠ [] ∧
      ∀ l ∈ f, ¬ l.status = GateLinkPassed) :=
  c6_close_readiness [idA] [GateTaskLink.mk idA idB GateLinkPassed] idB

/-! ### Claim C10 -/

lemma gateAfterRuns_counters (runs : List (String × String × String × Nat)) :
    ∀ g : Gate, g.passCount + g.failCount ≤ g.runCount →
      (runs.foldl (fun g r => Gate.RecordRun g r.1 r.2.1 r.2.2.1 r.2.2.2)
          g).passCount +
        (runs.foldl (fun g r => Gate.RecordRun g r.1 r.2.1 r.2.2.1 r.2.2.2)
          g).failCount ≤
        (runs.foldl (fun g r => Gate.RecordRun g r.1 r.2.1 r.2.2.1 r.2.2.2)
          g).runCount := by
  induction runs with
  | nil => intro g h; simpa using h
  | cons r rs ih =>
    intro g h
    rw [List.foldl_cons]
    apply ih
    simp only [Gate.RecordRun]
    split_ifs <;> omega

/-- C10: starting from zero counters, after any sequence of recorded
runs the pass and fail counts together never exceed the run count (a
skipped result bumps only the run count), and the pass rate is total:
it is zero for a gate that never ran and otherwise the pass fraction
scaled to a percentage, always between zero and one hundred, with no
division by zero. -/
theorem c10_counters_and_pass_rate (runs : List (String × String × String × Nat)) :
    (gateAfterRuns runs).passCount + (gateAfterRuns runs).failCount ≤
      (gateAfterRuns runs).runCount ∧
    ((gateAfterRuns runs).runCount = 0 → Gate.PassRate (gateAfterRuns runs) = 0) ∧
    0 ≤ Gate.PassRate (gateAfterRuns runs) ∧
    Gate.PassRate (gateAfterRuns runs) ≤ 100 := by
  have hinv : (gateAfterRuns runs).passCount + (gateAfterRuns runs).failCount ≤
      (gateAfterRuns runs).runCount :=
    gateAfterRuns_counters runs zeroGate (by simp [zeroGate])
  refine ⟨hinv, ?_, ?_, ?_⟩
  · intro h
    unfold Gate.PassRate
    rw [if_pos h]
  · unfold Gate.PassRate
    split_ifs with h
    · norm_num
    · have h100 : (0 : ℚ) ≤ GatePercentMultiplier := by
        norm_num [GatePercentMultiplier]
      refine mul_nonneg ?_ h100
      positivity
  · unfold Gate.PassRate
    split_ifs with h
    · norm_num
    · have hrun : 0 < (gateAfterRuns runs).runCount := Nat.pos_of_ne_zero h
      have hple : (gateAfterRuns runs).passCount ≤ (gateAfterRuns runs).runCount := by
        omega
      have h1 : ((gateAfterRuns runs).passCount : ℚ) /
          ((gateAfterRuns runs).runCount : ℚ) ≤ 1 := by
        rw [div_le_one (by exact_mod_cast hrun)]
        exact_mod_cast hple
      calc ((gateAfterRuns runs).passCount : ℚ) /
            ((gateAfterRuns runs).runCount : ℚ) * GatePercentMultiplier
          ≤ 1 * GatePercentMultiplier := by
            apply mul_le_mul_of_nonneg_right h1
            norm_num [GatePercentMultiplier]
        _ = 100 := by norm_num [GatePercentMultiplier]

/-- Runs used by the C10 witness: one passed, one skipped. -/
def exRuns : List (String × String × String × Nat) :=
  [(GatePassed, userActor, emptyStr, 0), (GateSkipped, userActor, emptyStr, 1)]

/-- Witness for C10 at a concrete run sequence containing a skipped
result. -/
theorem c10_counters_and_pass_rate_witness :
    (gateAfterRuns exRuns).passCount + (gateAfterRuns exRuns).failCount ≤
      (gateAfterRuns exRuns).runCount ∧
    ((gateAfterRuns exRuns).runCount = 0 →
      Gate.PassRate (gateAfterRuns exRuns) = 0) ∧
    0 ≤ Gate.PassRate (gateAfterRuns exRuns) ∧
    Gate.PassRate (gateAfterRuns exRuns) ≤ 100 :=
  c10_counters_and_pass_rate exRuns

/-! ### Claims C1, C2 and C3 -/

/-- Task id of the task being closed in the concrete examples. -/
def tidT : String := "T"

/-- Task id of the open blocker in the C1 counterexample. -/
def tidU : String := "U"

/-- Gate id of the example gate. -/
def gidG : String := "G"

/-- Close reason used in the examples. -/
def exReason : String := "done"

/-- History id supplied by the abstract generator in the examples. -/
def hid1 : String := "hist-1"

/-- Second history id supplied by the abstract generator. -/
def hid2 : String := "hist-2"

/-- The open task T. -/
def taskT : Task := Task.mk tidT emptyStr StatusOpen emptyStr none

/-- The open task U. -/
def taskU : Task := Task.mk tidU emptyStr StatusOpen emptyStr none

/-- Store of the C1 counterexample: T is open, blocked by the open task
U through a blocks edge, and carries one passed gate link. -/
def exStoreC1 : Store := Store.mk [taskT, taskU]
  [Dependency.mk tidU tidT DepTypeBlocks] [gidG]
  [GateTaskLink.mk gidG tidT GateLinkPassed] []

/-- C1 counterexample: although T has one open blocker, a forced close
in a non-interactive context succeeds — the forced path skips the
open-blocker check (and the open-subtask check) instead of enforcing
them as the claim states. -/
theorem c1_counterexample :
    openBlockerCount exStoreC1.tasks exStoreC1.deps tidT = 1 ∧
    (runClose exStoreC1 tidT true false emptyStr exReason hid1 hid2 0).isOk =
      true := by
  decide

/-- C1 (amended): with the force flag set, the closure workflow re-runs
only the gate check — it can never fail on open blockers or open
subtasks; when the gates pass it closes at once, when they fail it
refuses in a non-interactive context, and it closes with the prefixed
reason after an interactive yes confirmation. -/
theorem c1_force_gate_only (st : Store) (id : String) (interactive : Bool)
    (confirmation reason histID1 histID2 : String) (now : Nat) (task : Task)
    (hfind : GetTaskByID st.tasks id = some task)
    (hopen : ¬ task.status = StatusClosed) :
    (∀ tid cnt,
      runClose st id true interactive confirmation reason histID1 histID2 now ≠
        .error (.openBlockers tid cnt) ∧
      runClose st id true interactive confirmation reason histID1 histID2 now ≠
        .error (.openSubtasks tid cnt)) ∧
    (CheckGatesBeforeClose st.gates st.links task.id = none →
      runClose st id true interactive confirmation reason histID1 histID2 now =
        .ok (applyClose st task reason histID1 histID2 now)) ∧
    (∀ e, CheckGatesBeforeClose st.gates st.links task.id = some e →
      interactive = false →
      runClose st id true interactive confirmation reason histID1 histID2 now =
        .error (.forceNonInteractive e)) ∧
    (∀ e, CheckGatesBeforeClose st.gates st.links task.id = some e →
      interactive = true → confirmation = yesAnswer →
      runClose st id true interactive confirmation reason histID1 histID2 now =
        .ok (applyClose st task (forceClosedTag ++ reason) histID1 histID2 now)) := by
  have hrc : runClose st id true interactive confirmation reason histID1 histID2 now =
      (match CheckGatesBeforeClose st.gates st.links task.id with
      | some e =>
        if !interactive then Except.error (.forceNonInteractive e)
        else if !(confirmation = yesAnswer) then Except.error .forceCancelled
        else Except.ok
          (applyClose st task (forceClosedTag ++ reason) histID1 histID2 now)
      | none => Except.ok (applyClose st task reason histID1 histID2 now)) := by
    unfold runClose
    rw [hfind]
    simp only [hopen, Bool.not_true, if_false, ite_false, Bool.false_eq_true]
  refine ⟨?_, ?_, ?_, ?_⟩
  · intro tid cnt
    rw [hrc]
    cases hc : CheckGatesBeforeClose st.gates st.links task.id with
    | none => exact ⟨by simp, by simp⟩
    | some e =>
      constructor
      · split_ifs <;> simp
      · split_ifs <;> simp
  · intro h
    rw [hrc, h]
  · intro e he hint
    rw [hrc, he, hint]
    rfl
  · intro e he hint hconf
    rw [hrc, he, hint, hconf]
    simp

/-- Witness for the amended C1 at the concrete blocked store: the gates
pass, and the forced non-interactive close succeeds in spite of the
open blocker. -/
theorem c1_force_gate_only_witness :
    (GetTaskByID exStoreC1.tasks tidT = some taskT ∧
      ¬ taskT.status = StatusClosed) ∧
    ((∀ tid cnt,
      runClose exStoreC1 tidT true false emptyStr exReason hid1 hid2 0 ≠
        .error (.openBlockers tid cnt) ∧
      runClose exStoreC1 tidT true false emptyStr exReason hid1 hid2 0 ≠
        .error (.openSubtasks tid cnt)) ∧
    (CheckGatesBeforeClose exStoreC1.gates exStoreC1.links taskT.id = none →
      runClose exStoreC1 tidT true false emptyStr exReason hid1 hid2 0 =
        .ok (applyClose exStoreC1 taskT exReason hid1 hid2 0)) ∧
    (∀ e, CheckGatesBeforeClose exStoreC1.gates exStoreC1.links taskT.id =
        some e →
      false = false →
      runClose exStoreC1 tidT true false emptyStr exReason hid1 hid2 0 =
        .error (.forceNonInteractive e)) ∧
    (∀ e, CheckGatesBeforeClose exStoreC1.gates exStoreC1.links taskT.id =
        some e →
      false = true → emptyStr = yesAnswer →
      runClose exStoreC1 tidT true false emptyStr exReason hid1 hid2 0 =
        .ok (applyClose exStoreC1 taskT (forceClosedTag ++ exReason)
          hid1 hid2 0))) :=
  ⟨⟨by decide, by decide⟩,
    c1_force_gate_only exStoreC1 tidT false emptyStr exReason hid1 hid2 0 taskT
      (by decide) (by decide)⟩

/-- Store of the C2 and C3 failing input: T is open and has no gate
links at all. -/
def exStoreC2 : Store := Store.mk [taskT] [] [] [] []

/-- The store produced when update closes T: status closed, no close
metadata, one history row for the status transition. -/
def exStoreC2Closed : Store := Store.mk
  [Task.mk tidT emptyStr StatusClosed emptyStr none] [] [] []
  [TaskHistory.mk hid1 tidT fieldStatus StatusOpen StatusClosed userActor 0]

/-- C2 at the failing input: updating the status of an open task with
zero gate links to closed succeeds without any gate check and without
any interactivity requirement, so an operation other than close moves a
task to closed while it has no passed gate link. -/
theorem c2_update_bypasses_gates :
    GetGateLinksForTask exStoreC2.gates exStoreC2.links tidT = [] ∧
    runUpdateStatus exStoreC2 tidT StatusClosed hid1 0 = .ok exStoreC2Closed := by
  decide

/-- The closed-without-metadata task produced by the C3 failing input. -/
def taskTClosedNoMeta : Task := Task.mk tidT emptyStr StatusClosed emptyStr none

/-- C3 at the failing input: the status-only update sets status closed
but leaves closedAt unset and closeReason empty, violating the
claimed invariant that close metadata is set exactly when the status is
closed. -/
theorem c3_update_breaks_close_metadata :
    runUpdateStatus exStoreC2 tidT StatusClosed hid1 0 = .ok exStoreC2Closed ∧
    GetTaskByID exStoreC2Closed.tasks tidT = some taskTClosedNoMeta ∧
    taskTClosedNoMeta.status = StatusClosed ∧
    taskTClosedNoMeta.closedAt = none ∧
    taskTClosedNoMeta.closeReason = emptyStr := by
  decide

end GuardRails
